import Mathlib

/-!
Shallow embedding of the recommendation core in
`ai-recommendation-engine/recommendation_logic.py`.

Python floats are modelled as exact rationals (ℚ); the two transcendental
functions the code uses (`math.sqrt`, `math.log`) are passed in explicitly as
a `RealFns` record of rational approximations, and every theorem that needs a
property of them (monotonicity, `log 1 = 0`) takes it as a hypothesis, so the
results hold for the real functions.  Python's global `random` module is
modelled as an explicit state of abstract type `σ` threaded through `fit`,
together with a record `RngImpl` of the three primitives the code calls
(`random.seed`, `random.sample`, `random.randint`); theorems that need a
guarantee of a primitive (e.g. that `sample` returns exactly `m` elements)
take it as a hypothesis, which the Mersenne-Twister implementation satisfies.
Python dicts whose iteration order never influences produced values
(`df`, `_idf`, `_course_vecs`, `by_id`) are modelled as lookup functions;
dicts built by repeated `d[k] = d.get(k, 0) + 1` whose key order does reach
the output (term-frequency tables feeding sparse vectors) are modelled as
association lists with first-occurrence key order, matching dict insertion
order.
-/

namespace RecLogic

/-- The functions `math.sqrt` and `math.log` as supplied rational-valued functions. -/
structure RealFns where
  sqrt : ℚ → ℚ
  log : ℚ → ℚ

/-- A character kept by the token pattern `[a-z0-9]+` (after lower-casing). -/
def isTokChar (c : Char) : Bool :=
  (('a' ≤ c) && (c ≤ 'z')) || (('0' ≤ c) && (c ≤ '9'))

/-- Maximal runs of token characters, accumulating the current run reversed. -/
def groupTokens : List Char → List Char → List String
  | [], cur => if cur.isEmpty then [] else [String.mk cur.reverse]
  | c :: rest, cur =>
      if isTokChar c then groupTokens rest (c :: cur)
      else if cur.isEmpty then groupTokens rest []
      else String.mk cur.reverse :: groupTokens rest []

/-- Python `tokenize(text)`: `re.findall("[a-z0-9]+", text.lower())`. -/
def tokenize (s : String) : List String :=
  groupTokens (s.data.map Char.toLower) []

/-- Lookup `b.get(k, d)` on a sparse vector stored as an association list. -/
def lookupD (l : List (String × ℚ)) (key : String) (d : ℚ) : ℚ :=
  match l.find? (fun kv => kv.1 == key) with
  | some kv => kv.2
  | none => d

/-- Python `tf[t] = tf.get(t, 0) + 1`: bump the count of `t`, appending a fresh key
at the end exactly as dict insertion order does. -/
def bump : List (String × ℚ) → String → List (String × ℚ)
  | [], t => [(t, 1)]
  | kv :: rest, t =>
      if kv.1 == t then (kv.1, kv.2 + 1) :: rest else kv :: bump rest t

/-- Term-frequency table of a token list, keys in first-occurrence order. -/
def tfOf (toks : List String) : List (String × ℚ) :=
  toks.foldl bump []

/-- Python `cosine_sim_sparse(a, b)`. -/
def cosine_sim_sparse (F : RealFns) (a b : List (String × ℚ)) : ℚ :=
  if a = [] ∨ b = [] then 0
  else
    let dot := (a.map (fun kv => kv.2 * lookupD b kv.1 0)).sum
    let na := F.sqrt ((a.map (fun kv => kv.2 * kv.2)).sum)
    let nb := F.sqrt ((b.map (fun kv => kv.2 * kv.2)).sum)
    if na = 0 ∨ nb = 0 then 0 else dot / (na * nb)

/-- The `CourseItem` dataclass. -/
structure CourseItem where
  id : ℤ
  code : String
  title : String
  description : String
  program : String
  level : String
  tags : String
deriving DecidableEq

/-- Python `CourseItem.as_text`. -/
def CourseItem.as_text (c : CourseItem) : String :=
  c.code ++ " " ++ c.title ++ " " ++ c.description ++ " " ++ c.program ++ " "
    ++ c.level ++ " " ++ c.tags

/-- Document frequency of token `t`: the number of corpus entries whose token
multiset contains `t` (each list entry counted once, as the per-document
`seen` set does). -/
def dfOf (courses : List CourseItem) (t : String) : ℕ :=
  (courses.filter (fun c => decide (t ∈ tokenize c.as_text))).length

/-- The smoothed idf value `log((n_docs + 1) / (df_t + 1)) + 1.0` with
`n_docs = max(1, len(courses))`. -/
def idfVal (F : RealFns) (courses : List CourseItem) (t : String) : ℚ :=
  F.log (((max 1 courses.length : ℕ) + 1 : ℚ) / ((dfOf courses t : ℚ) + 1)) + 1

/-- Python `self._idf.get(t, 0.0)`: the fitted idf table holds exactly the observed
tokens (those with `df ≥ 1`); everything else defaults to `0.0`. -/
def idfGet (F : RealFns) (courses : List CourseItem) (t : String) : ℚ :=
  if dfOf courses t = 0 then 0 else idfVal F courses t

/-- The fitted sparse vector of one course:
`vec[t] = (1.0 + log(cnt)) * idf.get(t, 0.0)` over its tf table. -/
def vecOfCourse (F : RealFns) (courses : List CourseItem) (c : CourseItem) :
    List (String × ℚ) :=
  (tfOf (tokenize c.as_text)).map
    (fun kv => (kv.1, (1 + F.log kv.2) * idfGet F courses kv.1))

/-- The state of a `CBFRecommender`: `_idf` and `_course_vecs` as lookup
functions plus the `_fitted` flag.  `vecs` returns `none` for an id never
assigned (not in the fitted corpus). -/
structure CBFState where
  idf : String → ℚ
  vecs : ℤ → Option (List (String × ℚ))
  fitted : Bool

/-- Python `CBFRecommender.fit(courses)`: for duplicate ids the last course in the
list wins, as repeated dict assignment does. -/
def fitCBF (F : RealFns) (courses : List CourseItem) : CBFState :=
  { idf := idfGet F courses
    vecs := fun cid =>
      (courses.reverse.find? (fun c => c.id == cid)).map (vecOfCourse F courses)
    fitted := true }

/-- A freshly constructed `CBFRecommender()`: empty tables, unfitted. -/
def emptyCBF : CBFState :=
  { idf := fun _ => 0, vecs := fun _ => none, fitted := false }

/-- Python `_vectorize_query(text)` against a given idf table. -/
def vectorizeQuery (F : RealFns) (idf : String → ℚ) (text : String) :
    List (String × ℚ) :=
  (tfOf (tokenize text)).map (fun kv => (kv.1, (1 + F.log kv.2) * idf kv.1))

/-- The `if not self._fitted: self.fit(courses)` step of `recommend`. -/
def candState (F : RealFns) (m : CBFState) (courses : List CourseItem) :
    CBFState :=
  if m.fitted then m else fitCBF F courses

/-- Python `if program_filter and c.program != program_filter: continue`:
a course survives the filter when the filter is absent, is the empty
(falsy) string, or matches the course's program tag. -/
def passesFilter (pf : Option String) (c : CourseItem) : Bool :=
  match pf with
  | none => true
  | some f => if f = "" then true else c.program == f

/-- The body of the scoring loop for one candidate course: `none` when the
course is skipped (filtered out, or its stored vector is missing or empty),
otherwise its `(id, cosine score)` pair. -/
def scoreCourse (F : RealFns) (m : CBFState) (qv : List (String × ℚ))
    (pf : Option String) (c : CourseItem) : Option (ℤ × ℚ) :=
  if passesFilter pf c then
    match m.vecs c.id with
    | none => none
    | some cv =>
        if cv = [] then none else some (c.id, cosine_sim_sparse F qv cv)
  else none

/-- The `scored` list of `recommend`, in candidate-list order. -/
def scoredList (F : RealFns) (m₀ : CBFState) (text : String)
    (courses : List CourseItem) (pf : Option String) : List (ℤ × ℚ) :=
  let m := candState F m₀ courses
  courses.filterMap (scoreCourse F m (vectorizeQuery F m.idf text) pf)

/-- Descending comparison on the score component, the key order of
`scored.sort(key=lambda x: x[1], reverse=True)`. -/
def scoreGe (a b : ℤ × ℚ) : Prop := b.2 ≤ a.2

instance : DecidableRel scoreGe :=
  fun a b => inferInstanceAs (Decidable (b.2 ≤ a.2))

instance : IsTotal (ℤ × ℚ) scoreGe := ⟨fun a b => le_total b.2 a.2⟩

instance : IsTrans (ℤ × ℚ) scoreGe := ⟨fun _ _ _ h₁ h₂ => le_trans h₂ h₁⟩

/-- Python's `list.sort` is a stable sort; with `reverse=True` elements with
equal keys keep their original relative order.  Insertion sort with this
insertion rule computes exactly that function. -/
def sortByScoreDesc (l : List (ℤ × ℚ)) : List (ℤ × ℚ) :=
  List.insertionSort scoreGe l

/-- Round-half-to-even on rationals, the rounding rule of Python's
`round`. -/
def roundHalfEven (q : ℚ) : ℤ :=
  if q - ⌊q⌋ < 1 / 2 then ⌊q⌋
  else if 1 / 2 < q - ⌊q⌋ then ⌊q⌋ + 1
  else if ⌊q⌋ % 2 = 0 then ⌊q⌋ else ⌊q⌋ + 1

/-- Python `round(score, 6)`. -/
def round6 (q : ℚ) : ℚ :=
  (roundHalfEven (q * 1000000) : ℚ) / 1000000

/-- One element of the list `recommend` returns. -/
structure RecEntry where
  course_id : ℤ
  code : String
  title : String
  program : String
  score : ℚ
deriving DecidableEq

/-- Building one output dict from a `(course id, score)` pair via
`by_id = {c.id: c for c in courses}` (for duplicate ids the last course in
the list wins).  The fallback branch is unreachable: every scored id comes
from the candidate list. -/
def entryOf (courses : List CourseItem) (p : ℤ × ℚ) : RecEntry :=
  match courses.reverse.find? (fun c => c.id == p.1) with
  | some c => ⟨p.1, c.code, c.title, c.program, round6 p.2⟩
  | none => ⟨p.1, "", "", "", round6 p.2⟩

/-- Python `CBFRecommender.recommend(student_text, courses, top_n, program_filter)`
from a starting model state `m₀`. -/
def recommend (F : RealFns) (m₀ : CBFState) (text : String)
    (courses : List CourseItem) (topN : ℕ) (pf : Option String) :
    List RecEntry :=
  ((sortByScoreDesc (scoredList F m₀ text courses pf)).take topN).map
    (entryOf courses)

/-- The `StudentVector` dataclass. -/
structure StudentVector where
  user_id : ℤ
  features : List ℚ
deriving DecidableEq

/-- The three primitives of Python's global `random` module that `fit`
calls, over an abstract generator state `σ`. -/
structure RngImpl (σ : Type) where
  seedFn : ℤ → σ
  sampleFn : σ → List (List ℚ) → ℕ → List (List ℚ) × σ
  randintFn : σ → ℕ → ℕ → ℕ × σ

/-- The state of a `KMeansClusterer`. -/
structure KMState where
  k : ℕ
  maxIter : ℕ
  seed : ℤ
  centroids : List (List ℚ)
  fitted : Bool
deriving DecidableEq

/-- Python `l2_distance(a, b)`; `zip` truncates to the shorter list exactly as
Python's does. -/
def l2_distance (F : RealFns) (a b : List ℚ) : ℚ :=
  F.sqrt (((a.zip b).map (fun xy => (xy.1 - xy.2) ^ 2)).sum)

/-- The scanning loop of `_nearest_centroid_index`, with `best = none`
standing for the initial `float("inf")` (every distance beats it). -/
def nearestAux (F : RealFns) (p : List ℚ) :
    List (List ℚ) → ℕ → ℕ → Option ℚ → ℕ
  | [], _, besti, _ => besti
  | c :: rest, i, besti, best =>
      let d := l2_distance F p c
      if best.all (fun b => decide (d < b)) then
        nearestAux F p rest (i + 1) i (some d)
      else nearestAux F p rest (i + 1) besti best

/-- Python `_nearest_centroid_index(p)` over a given centroid list (returns `0` on
an empty list, as the initial `best_i` does). -/
def nearest_centroid_index (F : RealFns) (cs : List (List ℚ)) (p : List ℚ) :
    ℕ :=
  nearestAux F p cs 0 0 none

/-- Python `_mean_vector(points)`: coordinate-wise sums divided by the count, over
the dimensionality of the first point. -/
def mean_vector (cl : List (List ℚ)) : List ℚ :=
  (List.range (cl.headD []).length).map
    (fun j => ((cl.map (fun p => p.getD j 0)).sum) / (cl.length : ℚ))

/-- The recompute step: an empty cluster is reseeded from
`points[random.randint(0, len(points) - 1)]`, a non-empty one is replaced by
its mean. -/
def reseedOrMean {σ : Type} (R : RngImpl σ) (points : List (List ℚ)) :
    List (List (List ℚ)) → σ → List (List ℚ) × σ
  | [], s => ([], s)
  | cl :: rest, s =>
      if cl = [] then
        let r := R.randintFn s 0 (points.length - 1)
        let t := reseedOrMean R points rest r.2
        (points.getD r.1 [] :: t.1, t.2)
      else
        let t := reseedOrMean R points rest s
        (mean_vector cl :: t.1, t.2)

/-- The assignment step: bucket `i` receives, in data order, the points whose
nearest centroid index is `i`. -/
def assignClusters (F : RealFns) (k : ℕ) (cs points : List (List ℚ)) :
    List (List (List ℚ)) :=
  (List.range k).map
    (fun i => points.filter (fun p => decide (nearest_centroid_index F cs p = i)))

/-- The `for _ in range(self.max_iter)` loop of `fit`: assign, recompute
(threading the generator state), then stop early when the total centroid
shift drops below `1e-6`. -/
def fitGo {σ : Type} (R : RngImpl σ) (F : RealFns) (k : ℕ)
    (points : List (List ℚ)) : ℕ → List (List ℚ) → σ → List (List ℚ) × σ
  | 0, cs, s => (cs, s)
  | n + 1, cs, s =>
      let r := reseedOrMean R points (assignClusters F k cs points) s
      let shift := ((cs.zip r.1).map (fun ab => l2_distance F ab.1 ab.2)).sum
      if shift < 1 / 1000000 then r else fitGo R F k points n r.1 r.2

/-- Python `KMeansClusterer.fit(data)`: empty data clears the centroids and marks
the model unfitted; otherwise the generator is re-seeded from `self.seed`,
`min(k, n)` initial centroids are sampled, padded with copies of the first
point up to `k`, and the iteration loop runs. -/
def KMState.fit {σ : Type} (R : RngImpl σ) (F : RealFns) (km : KMState)
    (data : List StudentVector) (s : σ) : KMState × σ :=
  if data = [] then ({ km with centroids := [], fitted := false }, s)
  else
    let points := data.map (fun sv => sv.features)
    let samp := R.sampleFn (R.seedFn km.seed) points (min km.k points.length)
    let init := samp.1 ++ List.replicate (km.k - samp.1.length) (points.headD [])
    let r := fitGo R F km.k points km.maxIter init samp.2
    ({ km with centroids := r.1, fitted := true }, r.2)

/-- Python `KMeansClusterer.predict(features)`. -/
def KMState.predict (F : RealFns) (km : KMState) (q : List ℚ) : ℕ :=
  if km.fitted = false ∨ km.centroids = [] then 0
  else nearest_centroid_index F km.centroids q

/-- Python `build_student_feature_vector(...)`. -/
def build_student_feature_vector (score total logic programming networking
    design : ℤ) (interests : String) (behavior : ℚ) : List ℚ :=
  [((score : ℚ) / ((max 1 total : ℤ) : ℚ)) * 100,
   ((logic : ℚ) / ((max 1 total : ℤ) : ℚ)) * 100,
   ((programming : ℚ) / ((max 1 total : ℤ) : ℚ)) * 100,
   ((networking : ℚ) / ((max 1 total : ℤ) : ℚ)) * 100,
   ((design : ℚ) / ((max 1 total : ℤ) : ℚ)) * 100,
   ((tokenize interests).length : ℚ),
   behavior]

/-- One step of Python's `max(..., key=lambda kv: kv[1])`: the running best
is replaced only by a strictly larger key, so the first maximum wins. -/
def maxStep (best x : String × ℤ) : String × ℤ :=
  if best.2 < x.2 then x else best

/-- Python `max(buckets.items(), key=lambda kv: kv[1])[0]` over a non-empty
association list split as head and tail. -/
def pickMaxKey (first : String × ℤ) (rest : List (String × ℤ)) : String :=
  (rest.foldl maxStep first).1

/-- Python `cluster_bias.get(cluster_id % 4, "IS")`. -/
def cluster_bias_get (i : ℤ) : String :=
  if i = 0 then "IS"
  else if i = 1 then "CS"
  else if i = 2 then "IT"
  else if i = 3 then "BTVTED (ICT)" else "IS"

/-- Python `recommend_program_from_signals(...)` restricted to its program and
confidence components; the third component of the Python return value is a
formatted explanation string used only for display and is not modelled.
`int()` truncates toward zero, which on the clamped range `[55, 95]`
coincides with the floor used here. -/
def recommend_program_from_signals (score total logic programming networking
    design cluster_id : ℤ) : String × ℤ :=
  let pct : ℚ := ((score : ℚ) / ((max 1 total : ℤ) : ℚ)) * 100
  let program := pickMaxKey ("IS", logic)
    [("CS", programming), ("IT", networking), ("BTVTED (ICT)", design)]
  let program :=
    if [logic, programming, networking, design].dedup.length = 1 then
      cluster_bias_get (cluster_id % 4)
    else program
  (program, ⌊min 95 (max 55 pct)⌋)

/-- Spec-side characterization (from the spec's words, for comparison with
the source translation above): the program of the first bucket attaining the
maximum value in the fixed declaration order IS, CS, IT, BTVTED. -/
def firstMaxProgram (logic programming networking design : ℤ) : String :=
  if programming ≤ logic ∧ networking ≤ logic ∧ design ≤ logic then "IS"
  else if networking ≤ programming ∧ design ≤ programming then "CS"
  else if design ≤ networking then "IT"
  else "BTVTED (ICT)"

/-! Concrete fixtures used by witness theorems. -/

/-- Rational stand-ins for `math.sqrt` and `math.log` used only at concrete
witness inputs whose conclusion does not depend on their values. -/
def Fw : RealFns := ⟨fun x => x, fun _ => 0⟩

/-- A concrete generator implementation over state `ℕ` for witnesses:
`sample` returns the first `m` population elements. -/
def Rw : RngImpl ℕ :=
  ⟨fun z => z.toNat, fun s pop m => (pop.take m, s + 1), fun s lo _ => (lo, s + 2)⟩

/-- A one-course corpus fixture. -/
def Cw1 : CourseItem := ⟨1, "a", "b", "c", "CS", "d", "e"⟩

/-- Fixture A of a duplicate-id pair: program tag CS. -/
def Aw : CourseItem := ⟨1, "a", "b", "c", "CS", "d", "e"⟩

/-- Fixture B of a duplicate-id pair: same id as `Aw`, program tag IT. -/
def Bw : CourseItem := ⟨1, "a", "b", "c", "IT", "d", "e"⟩

/-! Program classifier: claims C1 and C2. -/

lemma dedup4_len_one (a b c d : ℤ) :
    (([a, b, c, d] : List ℤ).dedup.length = 1) ↔ (a = b ∧ b = c ∧ c = d) := by
  constructor
  · intro h
    obtain ⟨z, hz⟩ := List.length_eq_one.mp h
    have ha : a ∈ ([a, b, c, d] : List ℤ).dedup := List.mem_dedup.mpr (by simp)
    have hb : b ∈ ([a, b, c, d] : List ℤ).dedup := List.mem_dedup.mpr (by simp)
    have hc : c ∈ ([a, b, c, d] : List ℤ).dedup := List.mem_dedup.mpr (by simp)
    have hd : d ∈ ([a, b, c, d] : List ℤ).dedup := List.mem_dedup.mpr (by simp)
    rw [hz] at ha hb hc hd
    simp only [List.mem_singleton] at ha hb hc hd
    exact ⟨ha.trans hb.symm, hb.trans hc.symm, hc.trans hd.symm⟩
  · rintro ⟨rfl, rfl, rfl⟩
    simp

lemma pickMax_eq_firstMax (l p n d : ℤ) :
    pickMaxKey ("IS", l) [("CS", p), ("IT", n), ("BTVTED (ICT)", d)]
      = firstMaxProgram l p n d := by
  simp only [pickMaxKey, List.foldl, maxStep, firstMaxProgram]
  split_ifs <;> simp_all <;> omega

/-- C1: whenever the four strength buckets are not all exactly equal,
`recommend_program_from_signals` returns the program of the first bucket
attaining the maximum value in the fixed order IS, CS, IT, BTVTED, for every
`cluster_id` (the cluster id is never consulted). -/
theorem claim_C1 (score total logic programming networking design
    cluster_id : ℤ)
    (h : ¬(logic = programming ∧ programming = networking ∧ networking = design)) :
    (recommend_program_from_signals score total logic programming networking
        design cluster_id).1
      = firstMaxProgram logic programming networking design := by
  simp only [recommend_program_from_signals]
  rw [if_neg (fun hc => h ((dedup4_len_one _ _ _ _).mp hc))]
  exact pickMax_eq_firstMax logic programming networking design

/-- Witness for C1 at a concrete partial tie (CS, IT, BTVTED tied below the
IS maximum, cluster id 2). -/
theorem claim_C1_w : (recommend_program_from_signals 0 10 5 3 3 3 2).1 = "IS" :=
  (claim_C1 0 10 5 3 3 3 2 (by decide)).trans (by decide)

/-- C2: when all four strength buckets are exactly equal, the pick is
overridden by `cluster_id mod 4` through the table
`{0 → IS, 1 → CS, 2 → IT, 3 → BTVTED}`. -/
theorem claim_C2 (score total logic programming networking design
    cluster_id : ℤ)
    (h1 : logic = programming) (h2 : programming = networking)
    (h3 : networking = design) :
    (recommend_program_from_signals score total logic programming networking
        design cluster_id).1
      = (if cluster_id % 4 = 0 then "IS"
         else if cluster_id % 4 = 1 then "CS"
         else if cluster_id % 4 = 2 then "IT" else "BTVTED (ICT)") := by
  subst h3; subst h2; subst h1
  simp only [recommend_program_from_signals]
  rw [if_pos ((dedup4_len_one _ _ _ _).mpr ⟨rfl, rfl, rfl⟩)]
  have h4 : cluster_id % 4 = 0 ∨ cluster_id % 4 = 1 ∨ cluster_id % 4 = 2
      ∨ cluster_id % 4 = 3 := by omega
  rcases h4 with h | h | h | h <;> simp [cluster_bias_get, h]

/-- Witness for C2: all strengths equal with cluster id 2 yields IT, the
spec's own example. -/
theorem claim_C2_w : (recommend_program_from_signals 0 10 3 3 3 3 2).1 = "IT" :=
  (claim_C2 0 10 3 3 3 3 2 rfl rfl rfl).trans (by decide)

/-! Determinism of fit/predict: claim C4. -/

/-- C4: two `fit`-then-`predict` runs over the same data with equal `k`,
`seed` and `max_iter` produce identical centroids and an identical predicted
cluster, whatever the incoming generator states and stale model fields were:
re-seeding from `self.seed` makes the pair a deterministic function of
`(seed, data order, k, query)`. -/
theorem claim_C4 {σ : Type} (R : RngImpl σ) (F : RealFns) (km₁ km₂ : KMState)
    (s₁ s₂ : σ) (data : List StudentVector) (q : List ℚ)
    (hk : km₁.k = km₂.k) (hseed : km₁.seed = km₂.seed)
    (hiter : km₁.maxIter = km₂.maxIter) :
    (KMState.fit R F km₁ data s₁).1.centroids
        = (KMState.fit R F km₂ data s₂).1.centroids
    ∧ KMState.predict F (KMState.fit R F km₁ data s₁).1 q
        = KMState.predict F (KMState.fit R F km₂ data s₂).1 q := by
  by_cases hd : data = []
  · subst hd; simp [KMState.fit, KMState.predict]
  · have hc : (KMState.fit R F km₁ data s₁).1.centroids
        = (KMState.fit R F km₂ data s₂).1.centroids := by
      simp only [KMState.fit, if_neg hd, hk, hseed, hiter]
    have hf₁ : (KMState.fit R F km₁ data s₁).1.fitted = true := by
      simp [KMState.fit, if_neg hd]
    have hf₂ : (KMState.fit R F km₂ data s₂).1.fitted = true := by
      simp [KMState.fit, if_neg hd]
    exact ⟨hc, by simp [KMState.predict, hf₁, hf₂, hc]⟩

/-- Witness for C4 at concrete states differing in incoming generator state
and stale centroids/fitted flag. -/
theorem claim_C4_w :
    (KMState.fit Rw Fw ⟨4, 50, 42, [], false⟩ [⟨1, [0, 0]⟩] 0).1.centroids
      = (KMState.fit Rw Fw ⟨4, 50, 42, [[1]], true⟩ [⟨1, [0, 0]⟩] 7).1.centroids :=
  (claim_C4 Rw Fw _ _ 0 7 [⟨1, [0, 0]⟩] [1, 2] rfl rfl rfl).1

/-! Degenerate-input defaults: claim C9. -/

/-- C9: the core returns defined defaults on degenerate input: `fit` on an
empty dataset clears the centroids, marks the model unfitted and leaves the
generator untouched; `predict` on an unfitted or centroid-less model returns
cluster 0; `recommend` on an empty corpus returns the empty list; and a
non-positive `total` is floored to 1 before any division, in both the
feature-vector builder and the program classifier. -/
theorem claim_C9 {σ : Type} (R : RngImpl σ) (F : RealFns) :
    (∀ (km : KMState) (s : σ),
        (KMState.fit R F km [] s).1.centroids = []
        ∧ (KMState.fit R F km [] s).1.fitted = false
        ∧ (KMState.fit R F km [] s).2 = s)
    ∧ (∀ (km : KMState) (q : List ℚ), km.fitted = false ∨ km.centroids = [] →
        KMState.predict F km q = 0)
    ∧ (∀ (m : CBFState) (text : String) (topN : ℕ) (pf : Option String),
        recommend F m text [] topN pf = [])
    ∧ (∀ (score total logic programming networking design cluster_id : ℤ)
        (interests : String) (behavior : ℚ), total ≤ 0 →
        build_student_feature_vector score total logic programming networking
            design interests behavior
          = build_student_feature_vector score 1 logic programming networking
              design interests behavior
        ∧ recommend_program_from_signals score total logic programming
            networking design cluster_id
          = recommend_program_from_signals score 1 logic programming networking
              design cluster_id) := by
  refine ⟨?_, ?_, ?_, ?_⟩
  · intro km s
    refine ⟨?_, ?_, ?_⟩ <;> simp [KMState.fit]
  · intro km q h
    simp only [KMState.predict]
    rw [if_pos h]
  · intro m text topN pf
    simp [recommend, scoredList, sortByScoreDesc, List.insertionSort]
  · intro score total logic programming networking design cluster_id
      interests behavior h
    have hm : (max 1 total : ℤ) = 1 := max_eq_left (by omega)
    exact ⟨by simp [build_student_feature_vector, hm],
      by simp [recommend_program_from_signals, hm]⟩

/-- Witness for C9 at concrete degenerate inputs. -/
theorem claim_C9_w :
    KMState.predict Fw ⟨4, 50, 42, [], false⟩ [1] = 0
    ∧ recommend Fw emptyCBF "x" [] 5 none = []
    ∧ build_student_feature_vector 3 0 1 1 1 1 "" 0
        = build_student_feature_vector 3 1 1 1 1 1 "" 0 :=
  ⟨(claim_C9 Rw Fw).2.1 _ _ (Or.inl rfl),
   (claim_C9 Rw Fw).2.2.1 _ _ _ _,
   ((claim_C9 Rw Fw).2.2.2 3 0 1 1 1 1 0 "" 0 (by norm_num)).1⟩

/-! K-means with `k = 1` and the centroid-count invariant: claims C7, C8. -/

lemma nearest_singleton (F : RealFns) (c p : List ℚ) :
    nearest_centroid_index F [c] p = 0 := rfl

lemma assign_k1 (F : RealFns) (c : List ℚ) (points : List (List ℚ)) :
    assignClusters F 1 [c] points = [points] := by
  have h1 : List.range 1 = [0] := rfl
  simp [assignClusters, nearest_singleton, h1, List.filter_eq_self]

lemma reseed_k1 {σ : Type} (R : RngImpl σ) (points : List (List ℚ)) (s : σ)
    (hp : points ≠ []) :
    reseedOrMean R points [points] s = ([mean_vector points], s) := by
  simp [reseedOrMean, hp]

lemma fitGo_k1_fix {σ : Type} (R : RngImpl σ) (F : RealFns)
    (points : List (List ℚ)) (hp : points ≠ []) :
    ∀ (n : ℕ) (s : σ),
      fitGo R F 1 points n [mean_vector points] s = ([mean_vector points], s) := by
  intro n
  induction n with
  | zero => intro s; rfl
  | succ n ih =>
      intro s
      simp only [fitGo, assign_k1, reseed_k1 R points s hp]
      split
      · rfl
      · exact ih s

lemma fitGo_k1_start {σ : Type} (R : RngImpl σ) (F : RealFns)
    (points : List (List ℚ)) (hp : points ≠ []) (c : List ℚ) (n : ℕ) (s : σ) :
    fitGo R F 1 points (n + 1) [c] s = ([mean_vector points], s) := by
  simp only [fitGo, assign_k1, reseed_k1 R points s hp]
  split
  · rfl
  · exact fitGo_k1_fix R F points hp n s

/-- C7: on a non-empty dataset of uniform dimensionality, `fit` with `k = 1`
ends with exactly one centroid, equal (exactly, in the rational model) to the
coordinate-wise arithmetic mean of all input points.  The hypothesis on
`sampleFn` is Python's guarantee that `random.sample(pop, m)` returns `m`
elements when `m ≤ len(pop)`. -/
theorem claim_C7 {σ : Type} (R : RngImpl σ) (F : RealFns) (km : KMState)
    (data : List StudentVector) (s : σ) (d : ℕ)
    (hk : km.k = 1) (hiter : 1 ≤ km.maxIter) (hdata : data ≠ [])
    (hdim : ∀ sv ∈ data, sv.features.length = d)
    (hs : ∀ (st : σ) (pop : List (List ℚ)) (m : ℕ), m ≤ pop.length →
        ((R.sampleFn st pop m).1).length = m) :
    (KMState.fit R F km data s).1.centroids
      = [(List.range d).map (fun j =>
          ((data.map (fun sv => sv.features.getD j 0)).sum) / (data.length : ℚ))] := by
  have hp : data.map (fun sv => sv.features) ≠ [] := by simpa using hdata
  have hmean : mean_vector (data.map (fun sv => sv.features))
      = (List.range d).map (fun j =>
          ((data.map (fun sv => sv.features.getD j 0)).sum) / (data.length : ℚ)) := by
    cases data with
    | nil => exact absurd rfl hdata
    | cons sv₀ rest =>
        simp only [mean_vector, List.map_cons, List.headD_cons]
        rw [hdim sv₀ (List.mem_cons_self _ _)]
        simp [List.map_map, Function.comp_def]
  simp only [KMState.fit, if_neg hdata, hk]
  have hlen1 : ((R.sampleFn (R.seedFn km.seed) (data.map (fun sv => sv.features))
      (min 1 (data.map (fun sv => sv.features)).length)).1).length = 1 := by
    rw [hs _ _ _ (min_le_right _ _)]
    have : 0 < (data.map (fun sv => sv.features)).length := List.length_pos.mpr hp
    omega
  obtain ⟨c, hc⟩ := List.length_eq_one.mp hlen1
  obtain ⟨t, ht⟩ : ∃ t, km.maxIter = t + 1 := ⟨km.maxIter - 1, by omega⟩
  rw [hc, ht]
  simp only [List.length_cons, List.length_nil, Nat.sub_self, List.replicate,
    List.append_nil]
  rw [fitGo_k1_start R F _ hp c t _]
  simpa using hmean

/-- Witness for C7: two 2-dimensional points with mean `[3, 6]`. -/
theorem claim_C7_w :
    (KMState.fit Rw Fw ⟨1, 50, 42, [], false⟩ [⟨1, [2, 4]⟩, ⟨2, [4, 8]⟩] 0).1.centroids
      = [[3, 6]] := by
  have h := claim_C7 Rw Fw ⟨1, 50, 42, [], false⟩ [⟨1, [2, 4]⟩, ⟨2, [4, 8]⟩] 0 2
    rfl (by norm_num) (by simp) (by decide)
    (fun st pop m hm => by simp [Rw]; omega)
  rw [h]
  norm_num [List.range_succ, List.getD]

lemma reseed_len {σ : Type} (R : RngImpl σ) (points : List (List ℚ)) :
    ∀ (cls : List (List (List ℚ))) (s : σ),
      ((reseedOrMean R points cls s).1).length = cls.length := by
  intro cls
  induction cls with
  | nil => intro s; rfl
  | cons cl rest ih =>
      intro s
      by_cases hcl : cl = [] <;> simp [reseedOrMean, hcl, ih]

lemma assign_len (F : RealFns) (k : ℕ) (cs points : List (List ℚ)) :
    (assignClusters F k cs points).length = k := by
  simp [assignClusters]

lemma fitGo_len {σ : Type} (R : RngImpl σ) (F : RealFns) (k : ℕ)
    (points : List (List ℚ)) :
    ∀ (n : ℕ) (cs : List (List ℚ)) (s : σ), cs.length = k →
      ((fitGo R F k points n cs s).1).length = k := by
  intro n
  induction n with
  | zero => intro cs s h; simpa [fitGo] using h
  | succ n ih =>
      intro cs s h
      have hr : ((reseedOrMean R points (assignClusters F k cs points) s).1).length
          = k := by rw [reseed_len, assign_len]
      simp only [fitGo]
      split
      · exact hr
      · exact ih _ _ hr

/-- C8: after `fit` on any non-empty dataset the model holds exactly `k`
centroids (padding with the first point when fewer than `k` points exist),
and the count `k` is an invariant of every assign/update iteration (an empty
cluster is reseeded, never dropped). -/
theorem claim_C8 {σ : Type} (R : RngImpl σ) (F : RealFns) (km : KMState)
    (data : List StudentVector) (s : σ) (hdata : data ≠ [])
    (hs : ∀ (st : σ) (pop : List (List ℚ)) (m : ℕ), m ≤ pop.length →
        ((R.sampleFn st pop m).1).length = m) :
    ((KMState.fit R F km data s).1).centroids.length = km.k
    ∧ ∀ (n : ℕ) (cs : List (List ℚ)) (st : σ), cs.length = km.k →
        ((fitGo R F km.k (data.map (fun sv => sv.features)) n cs st).1).length
          = km.k := by
  refine ⟨?_, fun n cs st h => fitGo_len R F km.k _ n cs st h⟩
  simp only [KMState.fit, if_neg hdata]
  have hlen : ((R.sampleFn (R.seedFn km.seed) (data.map (fun sv => sv.features))
      (min km.k (data.map (fun sv => sv.features)).length)).1).length
      = min km.k (data.map (fun sv => sv.features)).length :=
    hs _ _ _ (min_le_right _ _)
  apply fitGo_len
  simp only [List.length_append, List.length_replicate, List.length_map] at hlen ⊢
  rw [hlen]
  omega

/-- Witness for C8: one point, `k = 4`: one sampled centroid plus three
padded copies. -/
theorem claim_C8_w :
    ((KMState.fit Rw Fw ⟨4, 50, 42, [], false⟩ [⟨1, [0]⟩] 0).1).centroids.length
      = 4 :=
  (claim_C8 Rw Fw ⟨4, 50, 42, [], false⟩ [⟨1, [0]⟩] 0 (by simp)
    (fun st pop m hm => by simp [Rw]; omega)).1

/-! The ranked recommendation list: claims C3, C5, C10. -/

lemma filter_orderedInsert (q : ℚ) (x : ℤ × ℚ) :
    ∀ l : List (ℤ × ℚ),
      (List.orderedInsert scoreGe x l).filter (fun e => decide (e.2 = q))
        = if x.2 = q then x :: l.filter (fun e => decide (e.2 = q))
          else l.filter (fun e => decide (e.2 = q))
  | [] => by
      simp only [List.orderedInsert, List.filter]
      split_ifs <;> simp_all
  | y :: l => by
      simp only [List.orderedInsert]
      by_cases hr : scoreGe x y
      · rw [if_pos hr]
        by_cases hx : x.2 = q <;> by_cases hy : y.2 = q <;>
          simp [List.filter_cons, hx, hy]
      · rw [if_neg hr]
        have hlt : x.2 < y.2 := not_le.mp hr
        by_cases hx : x.2 = q
        · have hy : ¬(y.2 = q) := by rw [← hx]; exact ne_of_gt hlt
          simp [List.filter_cons, hx, hy, filter_orderedInsert q x l]
        · by_cases hy : y.2 = q <;>
            simp [List.filter_cons, hx, hy, filter_orderedInsert q x l]

lemma filter_sortByScoreDesc (q : ℚ) :
    ∀ l : List (ℤ × ℚ),
      (sortByScoreDesc l).filter (fun e => decide (e.2 = q))
        = l.filter (fun e => decide (e.2 = q))
  | [] => rfl
  | a :: l => by
      have ih := filter_sortByScoreDesc q l
      simp only [sortByScoreDesc] at ih
      simp only [sortByScoreDesc, List.insertionSort, filter_orderedInsert,
        List.filter_cons]
      by_cases ha : a.2 = q <;> simp [ha, ih]

/-- C3: the recommendation list is the scored list sorted by score
descending with a stable sort (ties keep original corpus order: the
subsequence at every score value is unchanged), truncated to at most `topN`
entries, each entry built from the course identity fields plus the
similarity score rounded half-to-even at 6 decimal places. -/
theorem claim_C3 (F : RealFns) (m₀ : CBFState) (text : String)
    (courses : List CourseItem) (topN : ℕ) (pf : Option String) :
    recommend F m₀ text courses topN pf
      = ((sortByScoreDesc (scoredList F m₀ text courses pf)).take topN).map
          (entryOf courses)
    ∧ List.Sorted scoreGe (sortByScoreDesc (scoredList F m₀ text courses pf))
    ∧ (sortByScoreDesc (scoredList F m₀ text courses pf)).Perm
        (scoredList F m₀ text courses pf)
    ∧ (∀ q : ℚ, (sortByScoreDesc (scoredList F m₀ text courses pf)).filter
          (fun e => decide (e.2 = q))
        = (scoredList F m₀ text courses pf).filter (fun e => decide (e.2 = q)))
    ∧ (recommend F m₀ text courses topN pf).length ≤ topN := by
  refine ⟨rfl, List.sorted_insertionSort scoreGe _,
    List.perm_insertionSort scoreGe _, fun q => filter_sortByScoreDesc q _, ?_⟩
  simp only [recommend, List.length_map, List.length_take]
  exact min_le_left _ _

/-- Witness for C3 at a concrete corpus. -/
theorem claim_C3_w : (recommend Fw emptyCBF "a" [Cw1] 10 none).length ≤ 10 :=
  (claim_C3 Fw emptyCBF "a" [Cw1] 10 none).2.2.2.2

lemma entryOf_course_id (courses : List CourseItem) (p : ℤ × ℚ) :
    (entryOf courses p).course_id = p.1 := by
  unfold entryOf
  split <;> rfl

lemma scoreCourse_eq_some (F : RealFns) (m : CBFState) (qv : List (String × ℚ))
    (pf : Option String) (c : CourseItem) (p : ℤ × ℚ)
    (h : scoreCourse F m qv pf c = some p) :
    passesFilter pf c = true ∧ ∃ cv, m.vecs c.id = some cv ∧ cv ≠ [] ∧
      p = (c.id, cosine_sim_sparse F qv cv) := by
  unfold scoreCourse at h
  by_cases hp : passesFilter pf c = true
  · rw [if_pos hp] at h
    cases hv : m.vecs c.id with
    | none => rw [hv] at h; exact absurd h (by simp)
    | some cv =>
        rw [hv] at h
        have h2 : (if cv = [] then none
            else some (c.id, cosine_sim_sparse F qv cv)) = some p := h
        by_cases hcv : cv = []
        · rw [if_pos hcv] at h2; exact absurd h2 (by simp)
        · rw [if_neg hcv] at h2
          exact ⟨hp, cv, rfl, hcv, (Option.some_injective _ h2).symm⟩
  · rw [if_neg hp] at h; exact absurd h (by simp)

lemma mem_scoredList (F : RealFns) (m₀ : CBFState) (text : String)
    (courses : List CourseItem) (pf : Option String) (p : ℤ × ℚ)
    (h : p ∈ scoredList F m₀ text courses pf) :
    ∃ c ∈ courses, passesFilter pf c = true ∧ ∃ cv,
      (candState F m₀ courses).vecs c.id = some cv ∧ cv ≠ [] ∧
      p = (c.id, cosine_sim_sparse F
        (vectorizeQuery F (candState F m₀ courses).idf text) cv) := by
  unfold scoredList at h
  obtain ⟨c, hc, hsc⟩ := List.mem_filterMap.mp h
  obtain ⟨h1, cv, h2, h3, h4⟩ := scoreCourse_eq_some _ _ _ _ _ _ hsc
  exact ⟨c, hc, h1, cv, h2, h3, h4⟩

lemma mem_recommend (F : RealFns) (m₀ : CBFState) (text : String)
    (courses : List CourseItem) (topN : ℕ) (pf : Option String) (e : RecEntry)
    (h : e ∈ recommend F m₀ text courses topN pf) :
    ∃ p ∈ scoredList F m₀ text courses pf, e = entryOf courses p := by
  unfold recommend at h
  obtain ⟨p, hp, rfl⟩ := List.mem_map.mp h
  exact ⟨p, (List.perm_insertionSort scoreGe _).subset (List.mem_of_mem_take hp),
    rfl⟩

/-- C10: a candidate course whose stored term vector is missing (id not in
the fitted corpus) or empty is silently omitted: no entry of the returned
list carries its id. -/
theorem claim_C10 (F : RealFns) (m₀ : CBFState) (text : String)
    (courses : List CourseItem) (topN : ℕ) (pf : Option String) (cid : ℤ)
    (hv : (candState F m₀ courses).vecs cid = none
        ∨ (candState F m₀ courses).vecs cid = some []) :
    ∀ e ∈ recommend F m₀ text courses topN pf, e.course_id ≠ cid := by
  intro e he
  obtain ⟨p, hp, rfl⟩ := mem_recommend F m₀ text courses topN pf e he
  obtain ⟨c, _, _, cv, hcv, hne, hpe⟩ :=
    mem_scoredList F m₀ text courses pf p hp
  rw [entryOf_course_id]
  intro hid
  rw [hpe] at hid
  simp only at hid
  rcases hv with h | h <;> rw [← hid, hcv] at h
  · exact absurd h (by simp)
  · exact hne (Option.some_injective _ h)

/-- Witness for C10: id 99 is not in the fitted corpus, so no returned entry
carries it. -/
theorem claim_C10_w :
    (recommend Fw emptyCBF "a" [Cw1] 10 none).all
      (fun e => decide (e.course_id ≠ 99)) = true := by
  rw [List.all_eq_true]
  intro e he
  simpa using claim_C10 Fw emptyCBF "a" [Cw1] 10 none 99 (Or.inl rfl) e he

/-- Counterexample for C5 as stated.  First conjunct: `programFilter` given
as the empty string is falsy in Python, so filtering is disabled and a CS
course is returned although its tag differs from the filter.  Second
conjunct: with two courses sharing an id, the course with program CS is
scored but the output fields come from the last course with that id, whose
program is IT, so a filter of "CS" returns an entry tagged IT.  The program
fields here do not depend on the stand-in `sqrt`/`log` functions. -/
theorem claim_C5_cex :
    ((recommend Fw emptyCBF "a" [Cw1] 10 (some "")).map (fun e => e.program)
        = ["CS"] ∧ "CS" ≠ "")
    ∧ ((recommend Fw emptyCBF "a" [Aw, Bw] 10 (some "CS")).map
          (fun e => e.program) = ["IT"] ∧ "IT" ≠ "CS") :=
  ⟨⟨rfl, by decide⟩, ⟨rfl, by decide⟩⟩

lemma find_of_nodup_ids (courses : List CourseItem) (c : CourseItem)
    (hnd : (courses.map (fun x => x.id)).Nodup) (hc : c ∈ courses) :
    courses.reverse.find? (fun x => x.id == c.id) = some c := by
  have hsome : (courses.reverse.find? (fun x => x.id == c.id)).isSome := by
    rw [List.find?_isSome]
    exact ⟨c, List.mem_reverse.mpr hc, by simp⟩
  obtain ⟨c', hfind⟩ := Option.isSome_iff_exists.mp hsome
  have hmem : c' ∈ courses := List.mem_reverse.mp (List.mem_of_find?_eq_some hfind)
  have hid : c'.id = c.id := by simpa using List.find?_some hfind
  rw [hfind, List.inj_on_of_nodup_map hnd hmem hc hid]

/-- C5 amended: whenever a non-empty `programFilter` is given and no two
candidate courses share an id, every returned entry's program tag equals the
filter.  (The counterexample shows the two dropped conditions are
necessary.) -/
theorem claim_C5_amended (F : RealFns) (m₀ : CBFState) (text : String)
    (courses : List CourseItem) (topN : ℕ) (f : String) (hf : f ≠ "")
    (hnd : (courses.map (fun c => c.id)).Nodup) :
    ∀ e ∈ recommend F m₀ text courses topN (some f), e.program = f := by
  intro e he
  obtain ⟨p, hp, rfl⟩ := mem_recommend F m₀ text courses topN (some f) e he
  obtain ⟨c, hc, hpass, cv, _, _, hpe⟩ :=
    mem_scoredList F m₀ text courses (some f) p hp
  have hcf : c.program = f := by
    have hpass2 : (if f = "" then true else c.program == f) = true := hpass
    rw [if_neg hf] at hpass2
    simpa using hpass2
  rw [hpe]
  simp [entryOf, find_of_nodup_ids courses c hnd hc, hcf]

/-- Witness for C5 amended: distinct ids and a non-empty filter. -/
theorem claim_C5_amended_w :
    (recommend Fw emptyCBF "a" [Cw1] 10 (some "CS")).all
      (fun e => e.program == "CS") = true := by
  rw [List.all_eq_true]
  intro e he
  simpa using claim_C5_amended Fw emptyCBF "a" [Cw1] 10 "CS" (by decide)
    (by simp) e he

/-! The smoothed idf: claim C6. -/

lemma dfOf_le_length (courses : List CourseItem) (t : String) :
    dfOf courses t ≤ courses.length :=
  List.length_filter_le _ _

/-- C6: after fitting, every observed token (document frequency at least 1)
has `idf(t) = log((N+1)/(df(t)+1)) + 1` with `N = max(1, corpus size)`, this
value is strictly positive, and idf is monotonically non-increasing in
document frequency.  The two hypotheses on `log` (monotone at or above 1 and
`log 1 = 0`) are properties of the real natural logarithm. -/
theorem claim_C6 (F : RealFns) (courses : List CourseItem) (t : String)
    (hmono : ∀ x y : ℚ, 1 ≤ x → x ≤ y → F.log x ≤ F.log y)
    (hone : F.log 1 = 0) (ht : 1 ≤ dfOf courses t) :
    idfGet F courses t
        = F.log (((max 1 courses.length : ℕ) + 1 : ℚ)
            / ((dfOf courses t : ℚ) + 1)) + 1
    ∧ 0 < idfGet F courses t
    ∧ ∀ u : String, 1 ≤ dfOf courses u → dfOf courses t ≤ dfOf courses u →
        idfGet F courses u ≤ idfGet F courses t := by
  have hNle : ∀ v : String,
      ((dfOf courses v : ℕ) : ℚ) ≤ ((max 1 courses.length : ℕ) : ℚ) := by
    intro v
    exact_mod_cast le_trans (dfOf_le_length courses v) (le_max_right _ _)
  have key : ∀ v : String,
      1 ≤ ((max 1 courses.length : ℕ) + 1 : ℚ) / ((dfOf courses v : ℚ) + 1) := by
    intro v
    rw [le_div_iff₀ (by positivity)]
    have := hNle v
    linarith
  have hval : ∀ v : String, 1 ≤ dfOf courses v →
      idfGet F courses v = idfVal F courses v := by
    intro v hv
    unfold idfGet
    rw [if_neg (by omega)]
  refine ⟨?_, ?_, ?_⟩
  · rw [hval t ht]; rfl
  · rw [hval t ht]
    unfold idfVal
    have h0 : 0 ≤ F.log (((max 1 courses.length : ℕ) + 1 : ℚ)
        / ((dfOf courses t : ℚ) + 1)) := by
      have := hmono 1 _ le_rfl (key t)
      rw [hone] at this
      exact this
    linarith
  · intro u hu htu
    rw [hval t ht, hval u hu]
    unfold idfVal
    have hdiv : ((max 1 courses.length : ℕ) + 1 : ℚ) / ((dfOf courses u : ℚ) + 1)
        ≤ ((max 1 courses.length : ℕ) + 1 : ℚ) / ((dfOf courses t : ℚ) + 1) := by
      have hcast : ((dfOf courses t : ℕ) : ℚ) ≤ ((dfOf courses u : ℕ) : ℚ) := by
        exact_mod_cast htu
      gcongr
    have := hmono _ _ (key u) hdiv
    linarith

/-- Witness for C6 at a concrete corpus and observed token. -/
theorem claim_C6_w : 0 < idfGet Fw [Cw1] "a" :=
  (claim_C6 Fw [Cw1] "a" (fun x y h1 h2 => le_refl 0) rfl (by decide)).2.1

end RecLogic
